import Mathlib

/-
Verification development for the puppet-env-manager repository.

The definitions below are a shallow embedding of
`src/lib/puppet_env_manager/manager.py` (class `EnvironmentManager`) and the
relevant defaults of `src/lib/puppet_env_manager/config.py`.  Strings are
modelled as `List Char`; Python `set` values as `Finset String`; the
filesystem, the git metadata and the `_locks` registry as explicit state; the
side effects of an operation as an explicit trace of events.  Python regular
expression semantics (in particular the fact that `$` also matches just
before a single trailing newline, and that `.` does not match a newline) are
modelled faithfully.
-/

namespace PuppetEnvManager

/-- Strings from the Python source are modelled as lists of characters. -/
abbrev Chars := List Char

/-- Membership test of the character class `[a-zA-Z0-9_]` used by
`EnvironmentManager.ENVIRONMENT_NAME_PATTERN = re.compile(r'^[a-zA-Z0-9_]+$')`.
`Char.isAlpha` and `Char.isDigit` are exactly the ASCII letter and digit
ranges. -/
def isEnvWordChar (c : Char) : Bool :=
  c.isAlpha || c.isDigit || c = '_'

/-- Semantics of `ENVIRONMENT_NAME_PATTERN.match(s)` being truthy, i.e. of the
Python regex `^[a-zA-Z0-9_]+$` matched with `re.match`.  In Python, `$`
matches at the end of the string or just before a newline at the end of the
string, so the pattern accepts one or more word characters optionally
followed by a single trailing newline. -/
def matchesNamePattern (cs : Chars) : Bool :=
  let core := if cs.getLast? = some '\n' then cs.dropLast else cs
  !core.isEmpty && core.all isEnvWordChar

/-- Semantics of `blacklist.match(s)` being truthy for the default blacklist
`ENVIRONMENT_NAME_BLACKLIST = r'^live_.*$'` from `config.py`.  In Python `.`
does not match a newline and `$` also matches just before a single trailing
newline, so the pattern accepts `live_` followed by newline-free text,
optionally followed by a single trailing newline. -/
def matchesDefaultBlacklist (cs : Chars) : Bool :=
  ("live_".toList).isPrefixOf cs &&
  (let rest := cs.drop 5
   let core := if rest.getLast? = some '\n' then rest.dropLast else rest
   core.all (fun c => !(c == '\n')))

/-- Embedding of `EnvironmentManager.validate_environment_name`.  The
configured blacklist is abstracted as a boolean matcher, mirroring
`self.blacklist.match`; `matchesDefaultBlacklist` is the default instance. -/
def validate_environment_name (blacklist : Chars → Bool) (environment : Chars) : Bool :=
  if !matchesNamePattern environment then false
  else if blacklist environment then false
  else true

/-- Embedding of the static method `EnvironmentManager.added_environments`:
`list(available_set - installed_set)`.  The Python code converts the set to a
list in unspecified iteration order; the spec explicitly disclaims any
ordering guarantee, so the model returns the underlying finite set. -/
def added_environments (installed_set available_set : Finset String) : Finset String :=
  available_set \ installed_set

/-- Embedding of `EnvironmentManager.existing_environments`:
`list(available_set.intersection(installed_set))`, as a finite set. -/
def existing_environments (installed_set available_set : Finset String) : Finset String :=
  available_set ∩ installed_set

/-- Embedding of `EnvironmentManager.removed_environments`:
`list(installed_set - available_set)`, as a finite set. -/
def removed_environments (installed_set available_set : Finset String) : Finset String :=
  installed_set \ available_set

/-- Embedding of `EnvironmentManager.calculate_environment_changes`, the pure
three-way diff returning `(added, existing, removed)`. -/
def calculate_environment_changes (installed_set available_set : Finset String) :
    Finset String × Finset String × Finset String :=
  (added_environments installed_set available_set,
   existing_environments installed_set available_set,
   removed_environments installed_set available_set)

/-- Embedding of `EnvironmentManager.list_installed_environments`, as a pure
function of the directory listing `items` of the environment directory.  The
source keeps an entry unless it starts with a dot, equals the master
repository name, contains a dot, or matches the blacklist pattern. -/
def list_installed_environments (blacklist : Chars → Bool) (master_repo_name : Chars)
    (items : List Chars) : List Chars :=
  items.filter (fun item =>
    !(item.head? = some '.') &&
    !(item == master_repo_name) &&
    !(item.contains '.') &&
    !(blacklist item))

/-- Kind of a directory entry as distinguished by `os.path.islink` and
`os.path.isdir` in the source: a symbolic link (with its `os.readlink`
target, stored as the full path the manager writes when creating links), a
directory that is not a symbolic link, or anything else. -/
inductive FSKind where
  | dir : FSKind
  | link : Chars → FSKind
  | file : FSKind
deriving DecidableEq

/-- Path concatenation as performed by `os.path.join(environment_dir, item)`
for an environment directory that does not end in a slash. -/
def joinPath (d item : Chars) : Chars := d ++ '/' :: item

/-- The skip conditions shared by the loop in
`EnvironmentManager.list_stale_environment_clones`: an entry is kept unless
it is hidden, is the master repository entry, or matches the blacklist. -/
def keepEntry (blacklist : Chars → Bool) (master_repo_name item : Chars) : Bool :=
  !(item.head? = some '.') &&
  !(item == master_repo_name) &&
  !(blacklist item)

/-- The `readlink` target recorded for a listed entry in the first loop of
`list_stale_environment_clones` (`links[os.readlink(path)] = path`), when the
entry is a symbolic link. -/
def linkTargetOf : Chars × FSKind → Option Chars
  | (_, FSKind.link t) => some t
  | _ => none

/-- The candidate full path recorded for a listed entry in the first loop of
`list_stale_environment_clones` (`candidates.append(path)`), when the entry
is a plain directory. -/
def dirPathOf (environment_dir : Chars) : Chars × FSKind → Option Chars
  | (name, FSKind.dir) => some (joinPath environment_dir name)
  | _ => none

/-- Embedding of `EnvironmentManager.list_stale_environment_clones`, as a pure
function of the directory listing (entry name together with its `FSKind`).
The source first collects, among the kept entries, the `readlink` targets of
symbolic links and the full paths of plain directories, then reports the
directories whose path is not a collected link target. -/
def list_stale_environment_clones (blacklist : Chars → Bool)
    (master_repo_name environment_dir : Chars) (items : List (Chars × FSKind)) : List Chars :=
  let kept := items.filter (fun e => keepEntry blacklist master_repo_name e.1)
  let links := kept.filterMap linkTargetOf
  let candidates := kept.filterMap (dirPathOf environment_dir)
  candidates.filter (fun c => !(links.contains c))

/-- Tail part of the stale-clone owner regex `^(?:.*/)?([^./]+)\.[^.]+$` from
`EnvironmentManager.cleanup_stale_environment_clones`: attempts to match
`[^./]+\.[^.]+$` against an entire string and returns the captured group.
The greedy run of `[^./]` characters must be nonempty and be followed by a
literal dot, and the remainder must be nonempty and dot-free (a negated
class does match a newline, so `[^.]+` always reaches the end of the
string when it is dot-free). -/
def tailMatch (cs : Chars) : Option Chars :=
  let run := cs.takeWhile (fun c => !(c == '.') && !(c == '/'))
  let rest := cs.drop run.length
  if rest.head? = some '.' then
    let suf := rest.tail
    if !run.isEmpty && !suf.isEmpty && suf.all (fun c => !(c == '.')) then some run
    else none
  else none

/-- Suffixes `b` such that the input decomposes as `a ++ '/' :: b` with `a`
newline-free, in order of decreasing length of `a`.  These are exactly the
split points the optional greedy group `(?:.*/)?` of the owner regex tries,
in the order a backtracking engine tries them (`.` does not match a
newline, so the group cannot extend past the first newline). -/
def goodSplits : Chars → List Chars
  | [] => []
  | c :: rest =>
      (if c = '\n' then [] else goodSplits rest) ++ (if c = '/' then [rest] else [])

/-- Embedding of
`re.sub(r'^(?:.*/)?([^./]+)\.[^.]+$', r'\1', clone_path)` from
`EnvironmentManager.cleanup_stale_environment_clones`.  Any match of this
anchored pattern spans the whole string, so the substitution returns the
captured group of the first decomposition the engine finds (group present,
longest prefix first, then group absent), and returns the input unchanged
when nothing matches. -/
def stripOwnerName (cs : Chars) : Chars :=
  match List.findSome? tailMatch (goodSplits cs) with
  | some mid => mid
  | none =>
      match tailMatch cs with
      | some mid => mid
      | none => cs

/-- Git metadata visible to the manager: the master repository's remote refs
(`master_repo.refs`, keyed by `"<remote>/<environment>"`, valued by the
commit hexsha), the head commit of each working copy (`Repo(path).head.commit`,
keyed by working-copy path) and the set of dirty working copies
(`repo.is_dirty()`). -/
structure GitState where
  refs : List (Chars × Chars)
  heads : List (Chars × Chars)
  dirty : List Chars
deriving DecidableEq

/-- State threaded through the manager's operations: the entries of the
environment directory keyed by full path, the keys of the `_locks` registry,
and the git metadata. -/
structure ManagerState where
  fs : List (Chars × FSKind)
  locks : List Chars
  git : GitState
deriving DecidableEq

/-- The configuration fields of `EnvironmentManager.__init__` that the
modelled operations consume. -/
structure Config where
  environment_dir : Chars
  master_repo_name : Chars
  blacklist : Chars → Bool
  upstream_remote : Chars
  new_workdir_path : Chars
  librarian_puppet_path : Chars
  noop : Bool

/-- Lookup in an association list keyed by strings (a Python `dict` whose
values we only ever read). -/
def lookupStr {α : Type} (m : List (Chars × α)) (k : Chars) : Option α :=
  (m.find? (fun e => e.1 == k)).map Prod.snd

/-- The filesystem entry at a full path, `none` when nothing exists there. -/
def fsGet (fs : List (Chars × FSKind)) (p : Chars) : Option FSKind :=
  lookupStr fs p

/-- Create or replace the filesystem entry at a full path. -/
def fsSet (fs : List (Chars × FSKind)) (p : Chars) (k : FSKind) : List (Chars × FSKind) :=
  (p, k) :: fs.filter (fun e => !(e.1 == p))

/-- Delete the filesystem entry at a full path. -/
def fsDel (fs : List (Chars × FSKind)) (p : Chars) : List (Chars × FSKind) :=
  fs.filter (fun e => !(e.1 == p))

/-- Record a new head commit for a working copy (`repo.head.reset(commit)`). -/
def gitSetHead (g : GitState) (p c : Chars) : GitState :=
  { g with heads := (p, c) :: g.heads.filter (fun e => !(e.1 == p)) }

/-- Externally visible events of one operation, in program order: subprocess
invocations, filesystem mutations, git mutations, lock-file creation and
removal by the `lockfile` library, and log lines. -/
inductive Effect where
  | runCommand : List Chars → Effect
  | makeSymlink : Chars → Chars → Effect
  | renamePath : Chars → Chars → Effect
  | rmtree : Chars → Effect
  | unlinkPath : Chars → Effect
  | gitReset : Chars → Effect
  | gitFetch : Effect
  | lockfileAcquire : Chars → Effect
  | lockfileRelease : Chars → Effect
  | logMsg : Chars → Effect
deriving DecidableEq

/-- Mutating calls other than lock-file maintenance: subprocess invocations
(`subprocess.check_output`), `os.symlink`, `os.rename`, `shutil.rmtree`,
`os.unlink`, `repo.head.reset` and `remote.fetch`. -/
def Effect.isDiskMutation : Effect → Bool
  | Effect.runCommand _ => true
  | Effect.makeSymlink _ _ => true
  | Effect.renamePath _ _ => true
  | Effect.rmtree _ => true
  | Effect.unlinkPath _ => true
  | Effect.gitReset _ => true
  | Effect.gitFetch => true
  | _ => false

/-- Every event that touches the filesystem, network or a subprocess,
including the creation and removal of `.lock` files. -/
def Effect.touchesFilesystem : Effect → Bool
  | Effect.lockfileAcquire _ => true
  | Effect.lockfileRelease _ => true
  | e => e.isDiskMutation

/-- Embedding of `EnvironmentManager.lock_path` (manager.py lines 149-168).
Outside noop mode a `LockFile` is created, acquired (blocking; modelled as
eventually succeeding) and recorded in `_locks` (a dict, so an already
present key would merely be overwritten).  In noop mode the operation only
logs: no `LockFile` is created and nothing is recorded in `_locks`. -/
def lock_path (noop : Bool) (st : ManagerState) (path : Chars) : ManagerState × List Effect :=
  let acquiring := Effect.logMsg ("Acquiring lock for ".toList ++ path)
  let acquired := Effect.logMsg ("Lock acquired for ".toList ++ path)
  if noop then (st, [acquiring, acquired])
  else
    ({ st with locks := if st.locks.contains path then st.locks else path :: st.locks },
     [acquiring, Effect.lockfileAcquire path, acquired])

/-- Embedding of `EnvironmentManager.unlock_path` (manager.py lines 170-182).
Returns silently when the path is not in `_locks`; otherwise, outside noop
mode, pops the entry and releases the lock file, while in noop mode it only
logs (the registry is not modified). -/
def unlock_path (noop : Bool) (st : ManagerState) (path : Chars) : ManagerState × List Effect :=
  if !(st.locks.contains path) then (st, [])
  else if noop then (st, [Effect.logMsg ("Released lock for ".toList ++ path)])
  else ({ st with locks := st.locks.erase path },
        [Effect.lockfileRelease path, Effect.logMsg ("Released lock for ".toList ++ path)])

/-- Embedding of `EnvironmentManager.environment_repo_path`: the canonical
path of a validly named environment, `None` (with an error log) otherwise. -/
def environment_repo_path (cfg : Config) (environment : Chars) : Option Chars :=
  if validate_environment_name cfg.blacklist environment then
    some (joinPath cfg.environment_dir environment)
  else none

/-- Embedding of `EnvironmentManager.check_sync`: the working copy is in sync
when its head commit equals the upstream commit and it is not dirty. -/
def check_sync (head_commit upstream_commit : Chars) (dirty : Bool) : Bool :=
  head_commit == upstream_commit && !dirty

/-- Result of one manager operation: a normal return with the final state and
the effect trace, an uncaught exception propagating to the caller (with the
state and trace at the point it was raised), or `stuck`, a modelling
artifact marking exhaustion of the finite suffix supply given to
`generate_unique_environment_path` (the source retries forever, so a long
enough supply makes this outcome unreachable). -/
inductive Outcome where
  | ok : ManagerState → List Effect → Outcome
  | raised : ManagerState → List Effect → Outcome
  | stuck : Outcome
deriving DecidableEq

/-- Embedding of `EnvironmentManager.generate_unique_environment_path`
(manager.py lines 252-268).  The source draws random 6-character suffixes
from `string.hexdigits` until `os.path.join(dir, "{env}.{suffix}")` names a
nonexistent path; the draws are modelled as an explicit supply consumed in
order. -/
def generate_unique_environment_path (cfg : Config) (fs : List (Chars × FSKind))
    (environment : Chars) : List Chars → Option (Chars × List Chars)
  | [] => none
  | s :: rest =>
      let path := joinPath cfg.environment_dir (environment ++ '.' :: s)
      if (fsGet fs path).isSome then generate_unique_environment_path cfg fs environment rest
      else some (path, rest)

/-- Embedding of `EnvironmentManager.install_puppet_modules` (manager.py
lines 293-313).  The installer subprocess runs unless in noop mode; its
failure is caught and logged, and in every case the manager state is
unchanged (module contents live below an environment entry, which this model
does not resolve further). -/
def install_puppet_modules (cfg : Config) (installOk : Bool) (st : ManagerState)
    (environment : Chars) : ManagerState × List Effect :=
  let announce := Effect.logMsg ("Installing puppet modules for environment ".toList ++ environment)
  let cmd := [cfg.librarian_puppet_path, "install".toList]
  if cfg.noop then (st, [announce])
  else if installOk then (st, [announce, Effect.runCommand cmd])
  else (st, [announce, Effect.runCommand cmd,
             Effect.logMsg ("Failed to install puppet modules into environment ".toList ++ environment)])

/-- Embedding of `EnvironmentManager.add_environment` (manager.py lines
315-352): validate, lock, clone into a fresh staging path, symlink the
canonical path to it, install modules, unlock.  On clone failure the error
is logged, the lock released and the method returns without linking. -/
def add_environment (cfg : Config) (cloneOk installOk : Bool) (supply : List Chars)
    (st : ManagerState) (environment : Chars) : Outcome :=
  if !(validate_environment_name cfg.blacklist environment) then
    Outcome.ok st [Effect.logMsg ("Not adding environment ".toList ++ environment ++ " with invalid name".toList)]
  else
    let environment_path := joinPath cfg.environment_dir environment
    let lockres := lock_path cfg.noop st environment_path
    let st1 := lockres.1
    let trHead := lockres.2 ++ [Effect.logMsg ("Adding environment ".toList ++ environment)]
    match generate_unique_environment_path cfg st1.fs environment supply with
    | none => Outcome.stuck
    | some (clone_path, _) =>
      let cmd := ["/bin/sh".toList, cfg.new_workdir_path,
                  joinPath cfg.environment_dir cfg.master_repo_name, clone_path, environment]
      if cfg.noop then
        let inst := install_puppet_modules cfg installOk st1 environment
        let unl := unlock_path cfg.noop inst.1 environment_path
        Outcome.ok unl.1 (trHead ++ inst.2 ++ unl.2)
      else if cloneOk then
        let st2 := { st1 with
          fs := fsSet (fsSet st1.fs clone_path FSKind.dir) environment_path (FSKind.link clone_path) }
        let inst := install_puppet_modules cfg installOk st2 environment
        let unl := unlock_path cfg.noop inst.1 environment_path
        Outcome.ok unl.1 (trHead ++ [Effect.runCommand cmd, Effect.makeSymlink clone_path environment_path] ++ inst.2 ++ unl.2)
      else
        let unl := unlock_path cfg.noop st1 environment_path
        Outcome.ok unl.1 (trHead ++ [Effect.runCommand cmd,
          Effect.logMsg ("Failed to add environment ".toList ++ environment)] ++ unl.2)

/-- Embedding of `EnvironmentManager.update_environment` (manager.py lines
354-434).  `cloneOk` is the outcome of the `git-new-workdir` subprocess,
`installOk` that of the dependency installer, `supply` the stream of random
suffixes drawn by `generate_unique_environment_path`.  Note that on clone
failure the source logs the error but, unlike `add_environment`, does not
return: execution continues with the installer and the symlink swap. -/
def update_environment (cfg : Config) (cloneOk installOk : Bool) (supply : List Chars)
    (st : ManagerState) (environment : Chars) (force : Bool) : Outcome :=
  match environment_repo_path cfg environment with
  | none => Outcome.ok st
      [Effect.logMsg ("Cannot get repository for ".toList ++ environment ++ " with invalid name".toList)]
  | some repo_path =>
    let lockres := lock_path cfg.noop st repo_path
    let st1 := lockres.1
    match lookupStr st1.git.refs (cfg.upstream_remote ++ '/' :: environment) with
    | none => Outcome.raised st1 lockres.2
    | some upstream_commit =>
      match lookupStr st1.git.heads repo_path with
      | none => Outcome.raised st1 lockres.2
      | some head_commit =>
        let in_sync := check_sync head_commit upstream_commit (st1.git.dirty.contains repo_path)
        let syncTr := if in_sync then
            [Effect.logMsg (environment ++ " already up to date at ".toList ++ upstream_commit)]
          else []
        if in_sync && !force then
          let unl := unlock_path cfg.noop st1 repo_path
          Outcome.ok unl.1 (lockres.2 ++ syncTr ++ unl.2)
        else
          let resetTr := [Effect.logMsg ("Resetting ".toList ++ environment ++ " to ".toList ++ upstream_commit)]
          let st2 := if cfg.noop then st1 else { st1 with git := gitSetHead st1.git repo_path upstream_commit }
          let resetEff := if cfg.noop then ([] : List Effect) else [Effect.gitReset repo_path]
          match generate_unique_environment_path cfg st2.fs environment supply with
          | none => Outcome.stuck
          | some (clone_path, supply2) =>
            let cmd := ["/bin/sh".toList, cfg.new_workdir_path,
                        joinPath cfg.environment_dir cfg.master_repo_name, clone_path, environment]
            let cloneRes : ManagerState × List Effect :=
              if cfg.noop then (st2, [])
              else if cloneOk then
                ({ st2 with fs := fsSet st2.fs clone_path FSKind.dir }, [Effect.runCommand cmd])
              else
                (st2, [Effect.runCommand cmd,
                       Effect.logMsg ("Failed to add environment ".toList ++ environment)])
            let st3 := cloneRes.1
            let inst := install_puppet_modules cfg installOk st3 environment
            let st4 := inst.1
            let trHead := lockres.2 ++ syncTr ++ resetTr ++ resetEff ++ cloneRes.2 ++ inst.2
            match fsGet st4.fs repo_path with
            | some (FSKind.link old_clone) =>
                match generate_unique_environment_path cfg st4.fs environment supply2 with
                | none => Outcome.stuck
                | some (temp_link, _) =>
                  let swap : ManagerState × List Effect :=
                    if cfg.noop then (st4, [])
                    else
                      ({ st4 with fs := fsDel (fsSet (fsDel (fsSet st4.fs temp_link (FSKind.link clone_path))
                            temp_link) repo_path (FSKind.link clone_path)) old_clone },
                       [Effect.makeSymlink clone_path temp_link,
                        Effect.renamePath temp_link repo_path,
                        Effect.rmtree old_clone])
                  let unl := unlock_path cfg.noop swap.1 repo_path
                  Outcome.ok unl.1 (trHead ++ swap.2 ++ unl.2)
            | _ =>
                let warnTr := [Effect.logMsg (environment ++
                  " is not currently a symlink, update is happening non-atomically".toList)]
                match generate_unique_environment_path cfg st4.fs environment supply2 with
                | none => Outcome.stuck
                | some (temp_path, _) =>
                  if cfg.noop then
                    let unl := unlock_path cfg.noop st4 repo_path
                    Outcome.ok unl.1 (trHead ++ warnTr ++ unl.2)
                  else
                    match fsGet st4.fs repo_path with
                    | none => Outcome.raised st4 (trHead ++ warnTr)
                    | some k =>
                      let st5 := { st4 with
                        fs := fsDel (fsSet (fsSet (fsDel st4.fs repo_path) temp_path k)
                                repo_path (FSKind.link clone_path)) temp_path }
                      let unl := unlock_path cfg.noop st5 repo_path
                      Outcome.ok unl.1 (trHead ++ warnTr ++
                        [Effect.renamePath repo_path temp_path,
                         Effect.makeSymlink clone_path repo_path,
                         Effect.rmtree temp_path] ++ unl.2)

/-- Embedding of `EnvironmentManager.remove_environment` (manager.py lines
436-459): reject invalid names with a warning; for a symbolic link, unlink
it and delete its target tree; otherwise delete the directory tree at the
canonical path (which raises if nothing exists there). -/
def remove_environment (cfg : Config) (st : ManagerState) (environment : Chars) : Outcome :=
  match environment_repo_path cfg environment with
  | none => Outcome.ok st
      [Effect.logMsg ("Not removing environment ".toList ++ environment ++ " with invalid name".toList)]
  | some repo_path =>
    let delTr := [Effect.logMsg ("Deleting environment ".toList ++ environment)]
    match fsGet st.fs repo_path with
    | some (FSKind.link target_path) =>
        if cfg.noop then Outcome.ok st delTr
        else Outcome.ok { st with fs := fsDel (fsDel st.fs repo_path) target_path }
               (delTr ++ [Effect.unlinkPath repo_path, Effect.rmtree target_path])
    | some _ =>
        if cfg.noop then Outcome.ok st delTr
        else Outcome.ok { st with fs := fsDel st.fs repo_path } (delTr ++ [Effect.rmtree repo_path])
    | none =>
        if cfg.noop then Outcome.ok st delTr
        else Outcome.raised st delTr

/-- The entry name of a full path lying directly under the given directory;
used to reconstruct `os.listdir(self.environment_dir)` from the path-keyed
filesystem model. -/
def entryNameUnder (d p : Chars) : Option Chars :=
  if (d ++ ['/']).isPrefixOf p then
    let n := p.drop (d.length + 1)
    if n.contains '/' then none else some n
  else none

/-- The directory listing of `d` derived from the filesystem model. -/
def listEntries (d : Chars) (fs : List (Chars × FSKind)) : List (Chars × FSKind) :=
  fs.filterMap (fun e => (entryNameUnder d e.1).map (fun n => (n, e.2)))

/-- The loop body of `EnvironmentManager.cleanup_stale_environment_clones`
(manager.py lines 548-562): for each stale clone, recover the owning
environment name by suffix stripping, lock it, delete the clone tree unless
in noop mode, unlock.  When the recovered name fails validation,
`environment_repo_path` yields `None`; in real mode `LockFile(None)` then
raises, while in noop mode the operation still only logs. -/
def cleanup_stale_loop (cfg : Config) : List Chars → ManagerState → List Effect → Outcome
  | [], st, tr => Outcome.ok st tr
  | clone_path :: rest, st, tr =>
      let removing := Effect.logMsg ("Removing stale environment clone ".toList ++ clone_path)
      match environment_repo_path cfg (stripOwnerName clone_path) with
      | none =>
          if cfg.noop then cleanup_stale_loop cfg rest st (tr ++ [removing])
          else Outcome.raised st tr
      | some p =>
          let l := lock_path cfg.noop st p
          let rmres : ManagerState × List Effect :=
            if cfg.noop then (l.1, [removing])
            else ({ l.1 with fs := fsDel l.1.fs clone_path }, [removing, Effect.rmtree clone_path])
          let unl := unlock_path cfg.noop rmres.1 p
          cleanup_stale_loop cfg rest unl.1 (tr ++ l.2 ++ rmres.2 ++ unl.2)

/-- Embedding of `EnvironmentManager.cleanup_stale_environment_clones`:
detect the stale clones on disk, then run the reclamation loop. -/
def cleanup_stale_environment_clones (cfg : Config) (st : ManagerState) : Outcome :=
  cleanup_stale_loop cfg
    (list_stale_environment_clones cfg.blacklist cfg.master_repo_name cfg.environment_dir
      (listEntries cfg.environment_dir st.fs))
    st []

/-- Embedding of `EnvironmentManager.fetch_changes` (manager.py lines
119-133): lock the master repository path, fetch from the upstream remote
unless in noop mode, unlock. -/
def fetch_changes (cfg : Config) (st : ManagerState) : ManagerState × List Effect :=
  let master_repo_path := joinPath cfg.environment_dir cfg.master_repo_name
  let l := lock_path cfg.noop st master_repo_path
  let fetchTr := if cfg.noop then [Effect.logMsg ("Fetching changes".toList)]
    else [Effect.logMsg ("Fetching changes".toList), Effect.gitFetch]
  let unl := unlock_path cfg.noop l.1 master_repo_path
  (unl.1, l.2 ++ fetchTr ++ unl.2)

/-- An operation outcome leaves the given state intact and its trace free of
filesystem-touching events (the `stuck` artifact carries no state). -/
def Outcome.preservesFrom (o : Outcome) (st : ManagerState) : Prop :=
  match o with
  | Outcome.ok st' tr => st' = st ∧ tr.filter Effect.touchesFilesystem = []
  | Outcome.raised st' tr => st' = st ∧ tr.filter Effect.touchesFilesystem = []
  | Outcome.stuck => True

/-- The final state of a normally returning outcome. -/
def Outcome.finalState? : Outcome → Option ManagerState
  | Outcome.ok st _ => some st
  | _ => none

/-- The effect trace of a normally returning outcome. -/
def Outcome.traceOf? : Outcome → Option (List Effect)
  | Outcome.ok _ tr => some tr
  | _ => none

/-- Membership in `string.hexdigits = '0123456789abcdefABCDEF'`, the alphabet
`generate_unique_environment_path` draws its random suffix from. -/
def isHexDigitChar (c : Char) : Bool :=
  c.isDigit || ('a' ≤ c && c ≤ 'f') || ('A' ≤ c && c ≤ 'F')

/-- A concrete real-mode (noop off) configuration used to evaluate the model
on concrete inputs: environment directory `/d`, default master repository
name and blacklist, remote `origin`. -/
def sampleConfig : Config :=
  { environment_dir := "/d".toList
    master_repo_name := ".puppet.git".toList
    blacklist := matchesDefaultBlacklist
    upstream_remote := "origin".toList
    new_workdir_path := "/bin/git-new-workdir".toList
    librarian_puppet_path := "/usr/bin/librarian-puppet".toList
    noop := false }

/-- The same configuration with the simulate (noop) flag set. -/
def sampleNoopConfig : Config :=
  { sampleConfig with noop := true }

/-- A concrete state with one installed environment `test`: the canonical
path is a symbolic link to the clone `/d/test.old`, whose head commit
`987fed` is behind the upstream commit `123abc` of `origin/test`, with a
clean working copy and no locks held. -/
def sampleOutdatedState : ManagerState :=
  { fs := [("/d/test".toList, FSKind.link ("/d/test.old".toList)),
           ("/d/test.old".toList, FSKind.dir)]
    locks := []
    git := { refs := [("origin/test".toList, "123abc".toList)]
             heads := [("/d/test".toList, "987fed".toList)]
             dirty := [] } }

/-- The same concrete state but already in sync: the head commit of the
working copy equals the upstream commit. -/
def sampleSyncedState : ManagerState :=
  { sampleOutdatedState with
    git := { sampleOutdatedState.git with heads := [("/d/test".toList, "123abc".toList)] } }

/-- The outcome of updating `test` in `sampleOutdatedState` when the
`git-new-workdir` clone subprocess fails (`cloneOk = false`) while the
installer would succeed, with suffix draws `aaaaaa` then `bbbbbb`. -/
def cloneFailureResult : Outcome :=
  update_environment sampleConfig false true ["aaaaaa".toList, "bbbbbb".toList]
    sampleOutdatedState ("test".toList) false

/-! Theorems.  Each claim of the specification is settled by exactly one
theorem below; shared helper lemmas come first. -/

/-- C2: for every pair of finite sets, `calculate_environment_changes`
returns `(added, existing, removed)` with `added = available − installed`,
`existing = available ∩ installed`, `removed = installed − available`; the
three parts are pairwise disjoint and their union is `available ∪ installed`.
The embedding is a pure function, so the computation performs no I/O. -/
theorem calculate_environment_changes_spec (installed_set available_set : Finset String) :
    ((calculate_environment_changes installed_set available_set).1 =
        available_set \ installed_set ∧
     (calculate_environment_changes installed_set available_set).2.1 =
        available_set ∩ installed_set ∧
     (calculate_environment_changes installed_set available_set).2.2 =
        installed_set \ available_set) ∧
    (Disjoint (calculate_environment_changes installed_set available_set).1
        (calculate_environment_changes installed_set available_set).2.1 ∧
     Disjoint (calculate_environment_changes installed_set available_set).1
        (calculate_environment_changes installed_set available_set).2.2 ∧
     Disjoint (calculate_environment_changes installed_set available_set).2.1
        (calculate_environment_changes installed_set available_set).2.2) ∧
    (calculate_environment_changes installed_set available_set).1 ∪
      (calculate_environment_changes installed_set available_set).2.1 ∪
      (calculate_environment_changes installed_set available_set).2.2 =
      available_set ∪ installed_set := by
  refine ⟨⟨rfl, rfl, rfl⟩, ⟨?_, ?_, ?_⟩, ?_⟩
  · rw [Finset.disjoint_left]
    intro x hx hx'
    simp only [calculate_environment_changes, added_environments, existing_environments,
      Finset.mem_sdiff, Finset.mem_inter] at hx hx'
    exact hx.2 hx'.2
  · rw [Finset.disjoint_left]
    intro x hx hx'
    simp only [calculate_environment_changes, added_environments, removed_environments,
      Finset.mem_sdiff] at hx hx'
    exact hx'.2 hx.1
  · rw [Finset.disjoint_left]
    intro x hx hx'
    simp only [calculate_environment_changes, existing_environments, removed_environments,
      Finset.mem_inter, Finset.mem_sdiff] at hx hx'
    exact hx'.2 hx.1
  · ext x
    simp only [calculate_environment_changes, added_environments, existing_environments,
      removed_environments, Finset.mem_union, Finset.mem_sdiff, Finset.mem_inter]
    tauto

/-- C5 (amended): membership in `list_installed_environments` is exactly:
listed, not hidden, not the master repository entry, containing no dot, and
not matching the blacklist.  The syntax pattern of the name validator is not
among the conditions. -/
theorem list_installed_environments_spec (blacklist : Chars → Bool)
    (master_repo_name : Chars) (items : List Chars) (x : Chars) :
    x ∈ list_installed_environments blacklist master_repo_name items ↔
      x ∈ items ∧ ¬(x.head? = some '.') ∧ x ≠ master_repo_name ∧
        ¬('.' ∈ x) ∧ blacklist x = false := by
  simp only [list_installed_environments, List.mem_filter, Bool.and_eq_true,
    Bool.not_eq_true', decide_eq_false_iff_not, beq_eq_false_iff_ne, ne_eq]
  constructor
  · rintro ⟨hmem, ⟨⟨h1, h2⟩, h3⟩, h4⟩
    exact ⟨hmem, h1, h2, by simpa using h3, h4⟩
  · rintro ⟨hmem, h1, h2, h3, h4⟩
    exact ⟨hmem, ⟨⟨h1, h2⟩, by simpa using h3⟩, h4⟩

/-- C5, counterexample to the claim as stated: the entry `foo-bar` is kept by
`list_installed_environments` although the name validator rejects it (its
hyphen fails the syntax pattern), so entries rejected by the validator are
not all excluded. -/
theorem list_installed_includes_invalid_name_counterexample :
    list_installed_environments matchesDefaultBlacklist (".puppet.git".toList)
        [("foo-bar".toList)] = [("foo-bar".toList)] ∧
    validate_environment_name matchesDefaultBlacklist ("foo-bar".toList) = false := by
  decide

/-- C4 (amended): in simulated mode `lock_path` and `unlock_path` touch
neither the filesystem nor the `_locks` registry — the state is returned
unchanged and the trace holds no filesystem-touching event — whereas in real
mode `lock_path` does record the path in the registry. -/
theorem noop_lock_lifecycle_spec (st : ManagerState) (p : Chars) :
    (lock_path true st p).1 = st ∧
    (lock_path true st p).2.filter Effect.touchesFilesystem = [] ∧
    (unlock_path true st p).1 = st ∧
    (unlock_path true st p).2.filter Effect.touchesFilesystem = [] ∧
    (lock_path false st p).1.locks.contains p = true := by
  refine ⟨rfl, rfl, ?_, ?_, ?_⟩
  · unfold unlock_path
    split
    · rfl
    · rfl
  · unfold unlock_path
    split
    · rfl
    · rfl
  · unfold lock_path
    by_cases h : p ∈ st.locks
    · simp [h]
    · simp [h]

/-- C4, counterexample to the claim as stated: in simulated mode `lock_path`
does not record the claim in the per-run registry — starting from an empty
registry, the registry is still empty afterwards, so the registry
bookkeeping differs from real mode. -/
theorem noop_lock_not_recorded_counterexample :
    ((lock_path true
        { fs := [], locks := [], git := { refs := [], heads := [], dirty := [] } }
        ("/d/test".toList)).1.locks = []) ∧
    ¬ (("/d/test".toList) ∈ (lock_path true
        { fs := [], locks := [], git := { refs := [], heads := [], dirty := [] } }
        ("/d/test".toList)).1.locks) := by
  decide

/-- Characterization of the link-target extractor used by the stale-clone
scan. -/
theorem linkTargetOf_eq_some (e : Chars × FSKind) (t : Chars) :
    linkTargetOf e = some t ↔ e.2 = FSKind.link t := by
  obtain ⟨n, k⟩ := e
  cases k <;> simp [linkTargetOf]

/-- Characterization of the directory-candidate extractor used by the
stale-clone scan. -/
theorem dirPathOf_eq_some (d : Chars) (e : Chars × FSKind) (p : Chars) :
    dirPathOf d e = some p ↔ e.2 = FSKind.dir ∧ p = joinPath d e.1 := by
  obtain ⟨n, k⟩ := e
  cases k <;> simp [dirPathOf, eq_comm]

/-- C6 (amended): `list_stale_environment_clones` reports exactly the paths
of kept (non-hidden, non-master, non-blacklisted) plain-directory entries
that are not the recorded target of any kept symbolic link — links that are
themselves hidden, the master entry, or blacklisted do not protect a
directory.  On the spec's example listing it returns exactly
`/etc/puppetlabs/code/test.123abc`. -/
theorem list_stale_environment_clones_spec :
    (∀ (blacklist : Chars → Bool) (master_repo_name environment_dir : Chars)
        (items : List (Chars × FSKind)) (p : Chars),
        p ∈ list_stale_environment_clones blacklist master_repo_name environment_dir items ↔
          ((∃ name, (name, FSKind.dir) ∈ items ∧
              keepEntry blacklist master_repo_name name = true ∧
              p = joinPath environment_dir name) ∧
           (∀ name t, (name, FSKind.link t) ∈ items →
              keepEntry blacklist master_repo_name name = true → t ≠ p))) ∧
    list_stale_environment_clones matchesDefaultBlacklist (".puppet.git".toList)
        ("/etc/puppetlabs/code".toList)
        [(".puppet.git".toList, FSKind.dir),
         ("production".toList, FSKind.link ("/etc/puppetlabs/code/production.clone".toList)),
         ("production.clone".toList, FSKind.dir),
         ("test".toList, FSKind.link ("/etc/puppetlabs/code/test.clone".toList)),
         ("test.clone".toList, FSKind.dir),
         ("test.123abc".toList, FSKind.dir),
         ("live_test".toList, FSKind.dir)]
      = [("/etc/puppetlabs/code/test.123abc".toList)] := by
  constructor
  · intro blacklist master_repo_name environment_dir items p
    simp only [list_stale_environment_clones, List.mem_filter, List.mem_filterMap,
      Bool.not_eq_true', List.elem_eq_mem, decide_eq_false_iff_not,
      linkTargetOf_eq_some, dirPathOf_eq_some, Prod.exists]
    constructor
    · rintro ⟨⟨n, k, ⟨hmem, hkeep⟩, hk, hp⟩, hnl⟩
      subst hk
      refine ⟨⟨n, hmem, hkeep, hp⟩, ?_⟩
      intro name t hmem2 hkeep2 ht
      subst ht
      exact hnl ⟨name, FSKind.link t, ⟨hmem2, hkeep2⟩, rfl⟩
    · rintro ⟨⟨n, hmem, hkeep, hp⟩, hall⟩
      refine ⟨⟨n, FSKind.dir, ⟨hmem, hkeep⟩, rfl, hp⟩, ?_⟩
      rintro ⟨name, k, ⟨hmem2, hkeep2⟩, hk⟩
      subst hk
      exact hall name p hmem2 hkeep2 rfl
  · decide

/-- C6, counterexample to the claim as stated: the directory `x` is the
recorded target of a symbolic link present in the environment directory (the
hidden entry `.h`), yet `list_stale_environment_clones` still classifies it
as stale, because the scan skips hidden entries before collecting link
targets. -/
theorem stale_clone_hidden_link_counterexample :
    list_stale_environment_clones matchesDefaultBlacklist (".puppet.git".toList) ("/e".toList)
        [(".h".toList, FSKind.link ("/e/x".toList)), ("x".toList, FSKind.dir)]
      = [("/e/x".toList)] ∧
    (".h".toList, FSKind.link ("/e/x".toList)) ∈
        [((".h".toList : Chars), FSKind.link ("/e/x".toList)), ("x".toList, FSKind.dir)] := by
  decide

/-- Characterization of the Python match semantics of the environment name
pattern `^[a-zA-Z0-9_]+$`: a nonempty all-word string, optionally followed
by a single trailing newline. -/
theorem matchesNamePattern_iff (cs : Chars) :
    matchesNamePattern cs = true ↔
      ((cs ≠ [] ∧ ∀ c ∈ cs, isEnvWordChar c = true) ∨
       (∃ t, cs = t ++ ['\n'] ∧ t ≠ [] ∧ ∀ c ∈ t, isEnvWordChar c = true)) := by
  induction cs using List.reverseRecOn with
  | nil => simp [matchesNamePattern]
  | append_singleton l a ih =>
    by_cases ha : a = '\n'
    · subst ha
      simp only [matchesNamePattern, List.getLast?_concat, List.dropLast_concat, if_true,
        eq_self_iff_true, Bool.and_eq_true, Bool.not_eq_true', List.isEmpty_eq_false,
        List.all_eq_true, ne_eq]
      constructor
      · rintro ⟨hne, hall⟩
        refine Or.inr ⟨l, rfl, hne, hall⟩
      · rintro (⟨hne, hall⟩ | ⟨t, heq, hne, hall⟩)
        · have := hall '\n' (by simp)
          simp [isEnvWordChar] at this
        · rw [List.append_left_inj] at heq
          subst heq
          exact ⟨hne, hall⟩
    · have hlast : (l ++ [a]).getLast? = some a := List.getLast?_concat l
      have hcond : ¬ ((l ++ [a]).getLast? = some '\n') := by
        rw [hlast]
        simpa using ha
      simp only [matchesNamePattern, if_neg hcond, Bool.and_eq_true, Bool.not_eq_true',
        List.isEmpty_eq_false, List.all_eq_true, ne_eq]
      constructor
      · rintro ⟨hne, hall⟩
        exact Or.inl ⟨hne, hall⟩
      · rintro (⟨hne, hall⟩ | ⟨t, heq, hne, hall⟩)
        · exact ⟨hne, hall⟩
        · exact absurd (by simpa [hlast] using congrArg List.getLast? heq) (by simpa using ha)

/-- Unfolding of `validate_environment_name` into its two conditions. -/
theorem validate_environment_name_eq (blacklist : Chars → Bool) (environment : Chars) :
    validate_environment_name blacklist environment = true ↔
      matchesNamePattern environment = true ∧ blacklist environment = false := by
  unfold validate_environment_name
  constructor
  · intro h
    by_cases h1 : matchesNamePattern environment = true
    · refine ⟨h1, ?_⟩
      by_cases h2 : blacklist environment = true
      · simp [h1, h2] at h
      · simpa using h2
    · simp [h1] at h
  · rintro ⟨h1, h2⟩
    simp [h1, h2]

/-- C8 (amended): `validate_environment_name` accepts a name iff the name,
after dropping a single trailing newline when present, is a nonempty string
over `[A-Za-z0-9_]`, and the blacklist does not match; the concrete examples
of the spec hold; and a character outside the class makes the name invalid
except when it is a single trailing newline (tolerated by the Python `$`
anchor). -/
theorem validate_environment_name_spec :
    (∀ (blacklist : Chars → Bool) (name : Chars),
        validate_environment_name blacklist name = true ↔
          (((name ≠ [] ∧ ∀ c ∈ name, isEnvWordChar c = true) ∨
            (∃ t, name = t ++ ['\n'] ∧ t ≠ [] ∧ ∀ c ∈ t, isEnvWordChar c = true)) ∧
           blacklist name = false)) ∧
    (validate_environment_name matchesDefaultBlacklist ("production".toList) = true ∧
     validate_environment_name matchesDefaultBlacklist ("develop".toList) = true ∧
     validate_environment_name matchesDefaultBlacklist ("feature_branch".toList) = true ∧
     validate_environment_name matchesDefaultBlacklist ("feature_branch123".toList) = true ∧
     validate_environment_name matchesDefaultBlacklist ("live_test".toList) = false) ∧
    (∀ (blacklist : Chars → Bool) (name : Chars) (c : Char),
        c ∈ name → isEnvWordChar c = false → c ≠ '\n' →
        validate_environment_name blacklist name = false) ∧
    (∀ (blacklist : Chars → Bool) (name : Chars) (c : Char),
        c ∈ name.dropLast → isEnvWordChar c = false →
        validate_environment_name blacklist name = false) := by
  refine ⟨?_, by decide, ?_, ?_⟩
  · intro blacklist name
    rw [validate_environment_name_eq, matchesNamePattern_iff]
  · intro blacklist name c hc hw hnl
    rw [Bool.eq_false_iff]
    intro hv
    rw [validate_environment_name_eq, matchesNamePattern_iff] at hv
    rcases hv.1 with ⟨_, hall⟩ | ⟨t, heq, _, hall⟩
    · rw [hall c hc] at hw
      exact Bool.true_eq_false.mp hw
    · subst heq
      rcases List.mem_append.mp hc with h | h
      · rw [hall c h] at hw
        exact Bool.true_eq_false.mp hw
      · exact hnl (by simpa using h)
  · intro blacklist name c hc hw
    rw [Bool.eq_false_iff]
    intro hv
    rw [validate_environment_name_eq, matchesNamePattern_iff] at hv
    rcases hv.1 with ⟨_, hall⟩ | ⟨t, heq, _, hall⟩
    · rw [hall c (List.dropLast_subset name hc)] at hw
      exact Bool.true_eq_false.mp hw
    · rw [heq, List.dropLast_concat] at hc
      rw [hall c hc] at hw
      exact Bool.true_eq_false.mp hw

/-- Witness for the C8 theorem: the hyphen of `foo-bar` is outside the word
class and is not a newline, so the name is invalid. -/
theorem validate_environment_name_spec_witness :
    validate_environment_name matchesDefaultBlacklist ("foo-bar".toList) = false :=
  validate_environment_name_spec.2.2.1 matchesDefaultBlacklist ("foo-bar".toList) '-'
    (by decide) (by decide) (by decide)

/-- C8, counterexample to the claim as stated: `production\n` contains a
character outside `[A-Za-z0-9_]` yet is accepted, because in Python the `$`
anchor also matches just before a single trailing newline. -/
theorem validate_trailing_newline_counterexample :
    validate_environment_name matchesDefaultBlacklist ("production\n".toList) = true ∧
    ('\n' ∈ ("production\n".toList)) ∧ isEnvWordChar '\n' = false := by
  decide

/-- A character of the environment name class is not a dot, a slash or a
newline. -/
theorem isEnvWordChar_not_special (c : Char) (h : isEnvWordChar c = true) :
    ¬ c = '.' ∧ ¬ c = '/' ∧ ¬ c = '\n' := by
  refine ⟨?_, ?_, ?_⟩ <;> rintro rfl <;> exact absurd h (by decide)

/-- A hex digit is not a dot, a slash or a newline. -/
theorem isHexDigitChar_not_special (c : Char) (h : isHexDigitChar c = true) :
    ¬ c = '.' ∧ ¬ c = '/' ∧ ¬ c = '\n' := by
  refine ⟨?_, ?_, ?_⟩ <;> rintro rfl <;> exact absurd h (by decide)

/-- A run of characters satisfying the class predicate, followed by a
character that fails it, is cut by `takeWhile` exactly at that character. -/
theorem takeWhile_append_sep (p : Char → Bool) (l : Chars) (c : Char) (r : Chars)
    (hl : ∀ x ∈ l, p x = true) (hc : p c = false) :
    (l ++ c :: r).takeWhile p = l := by
  induction l with
  | nil => rw [List.nil_append, List.takeWhile_cons, if_neg (by simp [hc])]
  | cons a l ih =>
    have ha : p a = true := hl a (by simp)
    rw [List.cons_append, List.takeWhile_cons, if_pos ha,
      ih (fun x hx => hl x (by simp [hx]))]

/-- The tail part `[^./]+\.[^.]+$` of the owner regex captures exactly the
name when applied to `name ++ "." ++ suffix` with a dot-and-slash-free
nonempty name and a dot-free nonempty suffix. -/
theorem tailMatch_sep (nm suf : Chars) (hn : nm ≠ [])
    (hnc : ∀ c ∈ nm, (!(c == '.') && !(c == '/')) = true)
    (hs : suf ≠ []) (hsc : ∀ c ∈ suf, (c == '.') = false) :
    tailMatch (nm ++ '.' :: suf) = some nm := by
  have hrun : (nm ++ '.' :: suf).takeWhile (fun c => !(c == '.') && !(c == '/')) = nm :=
    takeWhile_append_sep _ nm '.' suf hnc (by decide)
  have hcond : (!nm.isEmpty && !suf.isEmpty && suf.all (fun c => !(c == '.'))) = true := by
    simp only [Bool.and_eq_true, Bool.not_eq_true', List.isEmpty_eq_false, List.all_eq_true]
    exact ⟨⟨hn, hs⟩, fun c hc => by simpa using hsc c hc⟩
  simp only [tailMatch]
  rw [hrun, List.drop_left]
  simp only [List.head?_cons, List.tail_cons, if_pos rfl]
  rw [if_pos hcond]
  simp

/-- A slash-free string offers the optional group `(?:.*/)?` no split point. -/
theorem goodSplits_of_no_slash (b : Chars) (hb : ¬ '/' ∈ b) : goodSplits b = [] := by
  induction b with
  | nil => rfl
  | cons c rest ih =>
    have hc : ¬ c = '/' := fun h => hb (by simp [h])
    have hrest : ¬ '/' ∈ rest := fun h => hb (by simp [h])
    simp [goodSplits, ih hrest, hc, ite_self]

/-- When the input is `a ++ "/" ++ b` with `a` newline-free and `b`
slash-free, the first split point the engine tries is exactly after that
slash. -/
theorem goodSplits_sep (a b : Chars) (ha : ¬ '\n' ∈ a) (hb : ¬ '/' ∈ b) :
    ∃ X, goodSplits (a ++ '/' :: b) = b :: X := by
  induction a with
  | nil =>
    refine ⟨[], ?_⟩
    simp [goodSplits, goodSplits_of_no_slash b hb]
  | cons c a ih =>
    obtain ⟨X, hX⟩ := ih (fun h => ha (by simp [h]))
    have hc : ¬ c = '\n' := fun h => ha (by simp [h])
    refine ⟨X ++ (if c = '/' then [a ++ '/' :: b] else []), ?_⟩
    rw [List.cons_append]
    simp only [goodSplits, if_neg hc, hX, List.cons_append]

/-- The first element of a list on which the function succeeds determines
`findSome?`. -/
theorem findSome?_cons_of_some {α β : Type} (f : α → Option β) (a : α) (l : List α) (b : β)
    (h : f a = some b) : List.findSome? f (a :: l) = some b := by
  rw [List.findSome?_cons, h]

/-- Core of C10: applying the owner-recovery substitution to a staging path
`dir/name.suffix` recovers exactly the environment name, provided the
directory is newline-free, the name matches `^[A-Za-z0-9_]+$` strictly, and
the suffix is a nonempty string of hex digits. -/
theorem stripOwnerName_roundtrip (d nm suf : Chars)
    (hd : ¬ '\n' ∈ d) (hn : nm ≠ [])
    (hnc : ∀ c ∈ nm, isEnvWordChar c = true)
    (hs : suf ≠ []) (hsc : ∀ c ∈ suf, isHexDigitChar c = true) :
    stripOwnerName (joinPath d (nm ++ '.' :: suf)) = nm := by
  have hslash : ¬ '/' ∈ (nm ++ '.' :: suf) := by
    intro h
    rcases List.mem_append.mp h with h | h
    · exact (isEnvWordChar_not_special '/' (hnc '/' h)).2.1 rfl
    · rcases List.mem_cons.mp h with h | h
      · exact absurd h.symm (by decide)
      · exact (isHexDigitChar_not_special '/' (hsc '/' h)).2.1 rfl
  obtain ⟨X, hX⟩ := goodSplits_sep d (nm ++ '.' :: suf) hd hslash
  have htb : tailMatch (nm ++ '.' :: suf) = some nm := by
    refine tailMatch_sep nm suf hn ?_ hs ?_
    · intro c hc
      obtain ⟨h1, h2, _⟩ := isEnvWordChar_not_special c (hnc c hc)
      simp [h1, h2]
    · intro c hc
      obtain ⟨h1, _, _⟩ := isHexDigitChar_not_special c (hsc c hc)
      simp [h1]
  show stripOwnerName (d ++ '/' :: (nm ++ '.' :: suf)) = nm
  unfold stripOwnerName
  rw [hX, findSome?_cons_of_some tailMatch _ X nm htb]

/-- C10: for every valid environment name and every staging path produced
for it by `generate_unique_environment_path` (a hex-suffixed path under a
newline-free environment directory), the owner-recovery substitution of
`cleanup_stale_environment_clones` returns exactly the original name. -/
theorem strip_generate_roundtrip (cfg : Config) (fs : List (Chars × FSKind))
    (environment : Chars) (supply : List Chars) (path : Chars) (rest : List Chars)
    (hdir : ¬ '\n' ∈ cfg.environment_dir)
    (hname : environment ≠ [])
    (hnamec : ∀ c ∈ environment, isEnvWordChar c = true)
    (hsupply : ∀ s ∈ supply, s ≠ [] ∧ ∀ c ∈ s, isHexDigitChar c = true)
    (hgen : generate_unique_environment_path cfg fs environment supply = some (path, rest)) :
    stripOwnerName path = environment := by
  induction supply generalizing rest with
  | nil => exact absurd hgen (by simp [generate_unique_environment_path])
  | cons s sup ih =>
    rw [generate_unique_environment_path] at hgen
    by_cases hex : (fsGet fs (joinPath cfg.environment_dir (environment ++ '.' :: s))).isSome = true
    · rw [if_pos hex] at hgen
      exact ih rest (fun t ht => hsupply t (List.mem_cons_of_mem s ht)) hgen
    · rw [if_neg hex] at hgen
      have hpath : path = joinPath cfg.environment_dir (environment ++ '.' :: s) := by
        have := (Option.some.injEq _ _).mp hgen
        exact (congrArg Prod.fst this).symm
      subst hpath
      obtain ⟨hs1, hs2⟩ := hsupply s (by simp)
      exact stripOwnerName_roundtrip cfg.environment_dir environment s hdir hname hnamec hs1 hs2

/-- Witness for C10: stripping the generated staging path of `production`
with suffix `0aF3b9` under `/d` gives back `production`. -/
theorem strip_generate_roundtrip_witness :
    stripOwnerName ("/d/production.0aF3b9".toList) = "production".toList :=
  strip_generate_roundtrip sampleConfig [] ("production".toList) [("0aF3b9".toList)]
    ("/d/production.0aF3b9".toList) [] (by decide) (by decide) (by decide) (by decide) (by decide)

/-- The lock registry after `lock_path`, as a function of the mode. -/
theorem lock_path_locks (noop : Bool) (st : ManagerState) (p : Chars) :
    (lock_path noop st p).1.locks =
      if noop = true then st.locks
      else (if st.locks.contains p = true then st.locks else p :: st.locks) := by
  unfold lock_path
  split <;> simp_all

/-- The filesystem is untouched by `lock_path`. -/
theorem lock_path_fs (noop : Bool) (st : ManagerState) (p : Chars) :
    (lock_path noop st p).1.fs = st.fs := by
  unfold lock_path
  split <;> rfl

/-- The git metadata is untouched by `lock_path`. -/
theorem lock_path_git (noop : Bool) (st : ManagerState) (p : Chars) :
    (lock_path noop st p).1.git = st.git := by
  unfold lock_path
  split <;> rfl

/-- The installer step never changes the manager state: it only runs (or
merely logs, in noop mode) a subprocess whose failure is caught. -/
theorem install_puppet_modules_state (cfg : Config) (installOk : Bool) (st : ManagerState)
    (environment : Chars) :
    (install_puppet_modules cfg installOk st environment).1 = st := by
  unfold install_puppet_modules
  split
  · rfl
  · split <;> rfl

/-- The canonical unlock behaviour when the path is not registered: a silent
return. -/
theorem unlock_path_not_locked (noop : Bool) (st : ManagerState) (p : Chars)
    (h : st.locks.contains p = false) :
    unlock_path noop st p = (st, []) := by
  unfold unlock_path
  rw [if_pos (by simp only [Bool.not_eq_true']; simpa using h)]

/-- The noop unlock behaviour when the path is registered: a log line only. -/
theorem unlock_path_noop_locked (st : ManagerState) (p : Chars)
    (h : st.locks.contains p = true) :
    unlock_path true st p = (st, [Effect.logMsg ("Released lock for ".toList ++ p)]) := by
  unfold unlock_path
  rw [if_neg (by simp only [Bool.not_eq_true']; simpa using h), if_pos rfl]

/-- The real-mode unlock behaviour when the path is registered: pop the
registry entry and release the lock file. -/
theorem unlock_path_real_locked (st : ManagerState) (p : Chars)
    (h : st.locks.contains p = true) :
    unlock_path false st p = ({ st with locks := st.locks.erase p },
      [Effect.lockfileRelease p, Effect.logMsg ("Released lock for ".toList ++ p)]) := by
  unfold unlock_path
  rw [if_neg (by simp only [Bool.not_eq_true']; simpa using h), if_neg (by simp)]

/-- Releasing a path that was locked on top of a registry not containing it
restores that registry, in either mode. -/
theorem unlock_result_locks (noop : Bool) (mid : ManagerState) (p : Chars) (l0 : List Chars)
    (hp : ¬ p ∈ l0) (hmid : mid.locks = if noop = true then l0 else p :: l0) :
    (unlock_path noop mid p).1.locks = l0 := by
  cases noop with
  | true =>
    rw [if_pos rfl] at hmid
    have hc : mid.locks.contains p = false := by
      rw [hmid]
      simpa using hp
    rw [unlock_path_not_locked true mid p hc]
    exact hmid
  | false =>
    rw [if_neg (by simp)] at hmid
    have hc : mid.locks.contains p = true := by
      rw [hmid]
      simp
    rw [unlock_path_real_locked mid p hc]
    show mid.locks.erase p = l0
    rw [hmid]
    exact List.erase_cons_head p l0

/-- Resolving the canonical path succeeds exactly on validated names and
returns the join of the environment directory with the name. -/
theorem environment_repo_path_some (cfg : Config) (environment rp : Chars)
    (h : environment_repo_path cfg environment = some rp) :
    rp = joinPath cfg.environment_dir environment := by
  unfold environment_repo_path at h
  split at h
  · exact ((Option.some.injEq _ _).mp h).symm
  · cases h

/-- Helper for C3, the `add_environment` half: every normal return of
`add_environment` leaves the environment path out of the lock registry. -/
theorem add_environment_releases_lock (cfg : Config) (cloneOk installOk : Bool)
    (supply : List Chars) (st : ManagerState) (environment : Chars)
    (hp : ¬ (joinPath cfg.environment_dir environment) ∈ st.locks) :
    ∀ st2 tr, add_environment cfg cloneOk installOk supply st environment = Outcome.ok st2 tr →
      ¬ (joinPath cfg.environment_dir environment) ∈ st2.locks := by
  intro st2 tr h
  have hcf : st.locks.contains (joinPath cfg.environment_dir environment) = false := by
    simpa using hp
  by_cases hval : validate_environment_name cfg.blacklist environment = true
  · unfold add_environment at h
    rw [if_neg (by simp [hval])] at h
    simp only [] at h
    cases hgen : generate_unique_environment_path cfg
        (lock_path cfg.noop st (joinPath cfg.environment_dir environment)).1.fs
        environment supply with
    | none =>
      rw [hgen] at h
      cases h
    | some pr =>
      obtain ⟨clone_path, rest2⟩ := pr
      rw [hgen] at h
      simp only [] at h
      by_cases hnoop : cfg.noop = true
      · rw [if_pos hnoop] at h
        cases h
        rw [unlock_result_locks cfg.noop _ _ st.locks hp
          (by simp [install_puppet_modules_state, lock_path_locks, hnoop])]
        exact hp
      · rw [if_neg hnoop] at h
        by_cases hclone : cloneOk = true
        · rw [if_pos hclone] at h
          cases h
          rw [unlock_result_locks cfg.noop _ _ st.locks hp
            (by simp [install_puppet_modules_state, lock_path_locks, hnoop, hp])]
          exact hp
        · rw [if_neg hclone] at h
          cases h
          rw [unlock_result_locks cfg.noop _ _ st.locks hp
            (by simp [lock_path_locks, hnoop, hp])]
          exact hp
  · have hvf : validate_environment_name cfg.blacklist environment = false := by
      simpa using hval
    unfold add_environment at h
    rw [if_pos (by simp [hvf])] at h
    cases h
    exact hp

/-- Helper for C3, the `update_environment` half: every normal return of
`update_environment` leaves the environment path out of the lock registry,
including the path taken when the clone subprocess fails. -/
theorem update_environment_releases_lock (cfg : Config) (cloneOk installOk : Bool)
    (supply : List Chars) (st : ManagerState) (environment : Chars) (force : Bool)
    (hp : ¬ (joinPath cfg.environment_dir environment) ∈ st.locks) :
    ∀ st2 tr, update_environment cfg cloneOk installOk supply st environment force = Outcome.ok st2 tr →
      ¬ (joinPath cfg.environment_dir environment) ∈ st2.locks := by
  intro st2 tr h
  unfold update_environment at h
  simp only [] at h
  split at h
  · cases h
    exact hp
  · rename_i repo_path heq
    have hrpe := environment_repo_path_some cfg environment repo_path heq
    subst hrpe
    split at h
    · cases h
    · split at h
      · cases h
      · split at h
        · cases h
          rw [unlock_result_locks cfg.noop _ _ st.locks hp
            (by by_cases hnoop : cfg.noop = true <;>
              simp [hnoop, apply_ite, install_puppet_modules_state, lock_path_locks, hp])]
          exact hp
        · split at h
          · cases h
          · split at h
            · split at h
              · cases h
              · cases h
                rw [unlock_result_locks cfg.noop _ _ st.locks hp
                  (by by_cases hnoop : cfg.noop = true <;>
                    simp [hnoop, apply_ite, install_puppet_modules_state, lock_path_locks, hp])]
                exact hp
            · split at h
              · cases h
              · split at h
                · cases h
                  rw [unlock_result_locks cfg.noop _ _ st.locks hp
                    (by by_cases hnoop : cfg.noop = true <;>
                      simp [hnoop, apply_ite, install_puppet_modules_state, lock_path_locks, hp])]
                  exact hp
                · split at h
                  · cases h
                  · cases h
                    rw [unlock_result_locks cfg.noop _ _ st.locks hp
                      (by by_cases hnoop : cfg.noop = true <;>
                        simp [hnoop, apply_ite, install_puppet_modules_state, lock_path_locks, hp])]
                    exact hp

/-- The trace and state of a noop lock acquisition. -/
theorem lock_path_noop_eq (st : ManagerState) (p : Chars) :
    lock_path true st p =
      (st, [Effect.logMsg ("Acquiring lock for ".toList ++ p),
            Effect.logMsg ("Lock acquired for ".toList ++ p)]) := by
  unfold lock_path
  rw [if_pos rfl]

/-- The trace and state of a real lock acquisition on a free path. -/
theorem lock_path_real_eq (st : ManagerState) (p : Chars)
    (h : st.locks.contains p = false) :
    lock_path false st p =
      ({ st with locks := p :: st.locks },
       [Effect.logMsg ("Acquiring lock for ".toList ++ p),
        Effect.lockfileAcquire p,
        Effect.logMsg ("Lock acquired for ".toList ++ p)]) := by
  unfold lock_path
  rw [if_neg (by simp), if_neg (by rw [h]; simp)]

/-- Locking then immediately unlocking a free path restores the state. -/
theorem lock_unlock_state (noop : Bool) (st : ManagerState) (p : Chars)
    (hp : ¬ p ∈ st.locks) :
    (unlock_path noop (lock_path noop st p).1 p).1 = st := by
  have hcf : st.locks.contains p = false := by simpa using hp
  cases noop with
  | true =>
    rw [lock_path_noop_eq]
    rw [unlock_path_not_locked true st p hcf]
  | false =>
    rw [lock_path_real_eq st p hcf]
    rw [unlock_path_real_locked _ p (by simp)]
    simp [List.erase_cons_head]

/-- Lock acquisition emits no disk mutation. -/
theorem lock_path_trace_no_disk (noop : Bool) (st : ManagerState) (p : Chars) :
    (lock_path noop st p).2.filter Effect.isDiskMutation = [] := by
  unfold lock_path
  split <;> simp [Effect.isDiskMutation]

/-- Lock release emits no disk mutation. -/
theorem unlock_path_trace_no_disk (noop : Bool) (st : ManagerState) (p : Chars) :
    (unlock_path noop st p).2.filter Effect.isDiskMutation = [] := by
  unfold unlock_path
  split
  · simp
  · split <;> simp [Effect.isDiskMutation]

/-- C3: after `add_environment` or `update_environment` returns normally —
whether the operation completed, skipped, or hit a caught per-environment
failure — the held-lock registry no longer contains the environment's path.
Outcomes where an uncaught exception propagates are not normal returns and
are excluded, as is the unreachable exhaustion of the suffix supply. -/
theorem locks_released_after_add_and_update (cfg : Config) (cloneOk installOk : Bool)
    (supply : List Chars) (st : ManagerState) (environment : Chars) (force : Bool)
    (hp : ¬ (joinPath cfg.environment_dir environment) ∈ st.locks) :
    (∀ st2 tr, add_environment cfg cloneOk installOk supply st environment = Outcome.ok st2 tr →
        ¬ (joinPath cfg.environment_dir environment) ∈ st2.locks) ∧
    (∀ st2 tr, update_environment cfg cloneOk installOk supply st environment force = Outcome.ok st2 tr →
        ¬ (joinPath cfg.environment_dir environment) ∈ st2.locks) :=
  ⟨add_environment_releases_lock cfg cloneOk installOk supply st environment hp,
   update_environment_releases_lock cfg cloneOk installOk supply st environment force hp⟩

/-- Witness for C3 at a concrete input. -/
theorem locks_released_after_add_and_update_witness :
    ¬ (joinPath sampleConfig.environment_dir ("live_x".toList) ∈ sampleOutdatedState.locks) :=
  (locks_released_after_add_and_update sampleConfig true true [] sampleOutdatedState
      ("live_x".toList) false (by decide)).2 sampleOutdatedState
    [Effect.logMsg ("Cannot get repository for ".toList ++ "live_x".toList ++ " with invalid name".toList)]
    (by decide)

/-- C7: updating an environment whose head commit equals the upstream commit
with a clean working copy and `force = false` returns normally with the
state unchanged, performs no clone, no installer run and no filesystem
mutation, and logs that the environment is already up to date. -/
theorem update_in_sync_skips_mutations (cfg : Config) (cloneOk installOk : Bool)
    (supply : List Chars) (st : ManagerState) (environment commit : Chars)
    (hval : validate_environment_name cfg.blacklist environment = true)
    (hp : ¬ (joinPath cfg.environment_dir environment) ∈ st.locks)
    (href : lookupStr st.git.refs (cfg.upstream_remote ++ '/' :: environment) = some commit)
    (hhead : lookupStr st.git.heads (joinPath cfg.environment_dir environment) = some commit)
    (hclean : ¬ (joinPath cfg.environment_dir environment) ∈ st.git.dirty) :
    (update_environment cfg cloneOk installOk supply st environment false).finalState? = some st ∧
    (update_environment cfg cloneOk installOk supply st environment false).traceOf?.map
        (fun tr => tr.filter Effect.isDiskMutation) = some [] ∧
    (update_environment cfg cloneOk installOk supply st environment false).traceOf?.map
        (fun tr => tr.contains (Effect.logMsg (environment ++ " already up to date at ".toList ++ commit))) = some true := by
  have hrp : environment_repo_path cfg environment =
      some (joinPath cfg.environment_dir environment) := by
    simp [environment_repo_path, hval]
  have hcs : check_sync commit commit
      (st.git.dirty.contains (joinPath cfg.environment_dir environment)) = true := by
    simp [check_sync, hclean]
  have hupd : update_environment cfg cloneOk installOk supply st environment false =
      Outcome.ok
        (unlock_path cfg.noop (lock_path cfg.noop st (joinPath cfg.environment_dir environment)).1
          (joinPath cfg.environment_dir environment)).1
        ((lock_path cfg.noop st (joinPath cfg.environment_dir environment)).2 ++
          [Effect.logMsg (environment ++ " already up to date at ".toList ++ commit)] ++
          (unlock_path cfg.noop (lock_path cfg.noop st (joinPath cfg.environment_dir environment)).1
            (joinPath cfg.environment_dir environment)).2) := by
    unfold update_environment
    rw [hrp]
    simp only []
    simp only [lock_path_git]
    rw [href]
    simp only []
    rw [hhead]
    simp only []
    rw [hcs]
    simp
  rw [hupd]
  refine ⟨?_, ?_, ?_⟩
  · simp only [Outcome.finalState?]
    rw [lock_unlock_state cfg.noop st _ hp]
  · simp only [Outcome.traceOf?, Option.map]
    rw [List.filter_append, List.filter_append, lock_path_trace_no_disk,
      unlock_path_trace_no_disk]
    simp [Effect.isDiskMutation]
  · simp only [Outcome.traceOf?, Option.map]
    simp

/-- Witness for C7: a synced `test` environment under the sample
configuration is left untouched. -/
theorem update_in_sync_skips_mutations_witness :
    (update_environment sampleConfig true true [("aaaaaa".toList)] sampleSyncedState
        ("test".toList) false).finalState? = some sampleSyncedState ∧
    (update_environment sampleConfig true true [("aaaaaa".toList)] sampleSyncedState
        ("test".toList) false).traceOf?.map
        (fun tr => tr.filter Effect.isDiskMutation) = some [] ∧
    (update_environment sampleConfig true true [("aaaaaa".toList)] sampleSyncedState
        ("test".toList) false).traceOf?.map
        (fun tr => tr.contains (Effect.logMsg (("test".toList) ++ " already up to date at ".toList ++ ("123abc".toList)))) = some true :=
  update_in_sync_skips_mutations sampleConfig true true [("aaaaaa".toList)] sampleSyncedState
    ("test".toList) ("123abc".toList) (by decide) (by decide) (by decide) (by decide) (by decide)

/-- A noop unlock never changes the state. -/
theorem unlock_path_noop_state (st : ManagerState) (p : Chars) :
    (unlock_path true st p).1 = st := by
  unfold unlock_path
  split
  · rfl
  · rw [if_pos rfl]

/-- A noop unlock touches nothing on disk. -/
theorem unlock_path_noop_trace (st : ManagerState) (p : Chars) :
    (unlock_path true st p).2.filter Effect.touchesFilesystem = [] := by
  unfold unlock_path
  split
  · simp
  · rw [if_pos rfl]
    simp [Effect.touchesFilesystem, Effect.isDiskMutation]

/-- In noop mode the installer step only logs. -/
theorem install_puppet_modules_noop (cfg : Config) (h : cfg.noop = true)
    (installOk : Bool) (st : ManagerState) (environment : Chars) :
    install_puppet_modules cfg installOk st environment =
      (st, [Effect.logMsg ("Installing puppet modules for environment ".toList ++ environment)]) := by
  unfold install_puppet_modules
  rw [if_pos h]

/-- Helper for C9: `add_environment` in noop mode preserves the state and
touches nothing. -/
theorem add_environment_noop (cfg : Config) (h : cfg.noop = true) (cloneOk installOk : Bool)
    (supply : List Chars) (st : ManagerState) (environment : Chars) :
    (add_environment cfg cloneOk installOk supply st environment).preservesFrom st := by
  unfold add_environment
  simp only [h, lock_path_noop_eq, install_puppet_modules_noop cfg h, eq_self_iff_true, if_true]
  split
  · exact ⟨rfl, by simp [Effect.touchesFilesystem, Effect.isDiskMutation]⟩
  · split
    · trivial
    · refine ⟨?_, ?_⟩
      · exact unlock_path_noop_state _ _
      · simp [List.filter_append, unlock_path_noop_trace,
          Effect.touchesFilesystem, Effect.isDiskMutation]

/-- Helper for C9: `update_environment` in noop mode preserves the state and
touches nothing. -/
theorem update_environment_noop (cfg : Config) (h : cfg.noop = true) (cloneOk installOk : Bool)
    (supply : List Chars) (st : ManagerState) (environment : Chars) (force : Bool) :
    (update_environment cfg cloneOk installOk supply st environment force).preservesFrom st := by
  unfold update_environment
  simp only [h, lock_path_noop_eq, install_puppet_modules_noop cfg h, eq_self_iff_true, if_true]
  split
  · exact ⟨rfl, by simp [Effect.touchesFilesystem, Effect.isDiskMutation]⟩
  · split
    · exact ⟨rfl, by simp [Effect.touchesFilesystem, Effect.isDiskMutation]⟩
    · split
      · exact ⟨rfl, by simp [Effect.touchesFilesystem, Effect.isDiskMutation]⟩
      · split
        · refine ⟨?_, ?_⟩
          · exact unlock_path_noop_state _ _
          · simp [List.filter_append, unlock_path_noop_trace,
              Effect.touchesFilesystem, Effect.isDiskMutation]
        · split
          · trivial
          · split
            · split
              · trivial
              · refine ⟨?_, ?_⟩
                · exact unlock_path_noop_state _ _
                · simp [List.filter_append, unlock_path_noop_trace,
                    Effect.touchesFilesystem, Effect.isDiskMutation]
            · split
              · trivial
              · refine ⟨?_, ?_⟩
                · exact unlock_path_noop_state _ _
                · simp [List.filter_append, unlock_path_noop_trace,
                    Effect.touchesFilesystem, Effect.isDiskMutation]

/-- Helper for C9: `remove_environment` in noop mode preserves the state and
touches nothing. -/
theorem remove_environment_noop (cfg : Config) (h : cfg.noop = true)
    (st : ManagerState) (environment : Chars) :
    (remove_environment cfg st environment).preservesFrom st := by
  unfold remove_environment
  simp only [h, eq_self_iff_true, if_true]
  split
  · exact ⟨rfl, by simp [Effect.touchesFilesystem, Effect.isDiskMutation]⟩
  · split
    · exact ⟨rfl, by simp [Effect.touchesFilesystem, Effect.isDiskMutation]⟩
    · exact ⟨rfl, by simp [Effect.touchesFilesystem, Effect.isDiskMutation]⟩
    · exact ⟨rfl, by simp [Effect.touchesFilesystem, Effect.isDiskMutation]⟩

/-- Helper for C9: the stale-clone reclamation loop in noop mode preserves
the state and touches nothing. -/
theorem cleanup_stale_loop_noop (cfg : Config) (h : cfg.noop = true) :
    ∀ (l : List Chars) (st : ManagerState) (tr : List Effect),
      tr.filter Effect.touchesFilesystem = [] →
      (cleanup_stale_loop cfg l st tr).preservesFrom st := by
  intro l
  induction l with
  | nil =>
    intro st tr htr
    exact ⟨rfl, htr⟩
  | cons c rest ih =>
    intro st tr htr
    unfold cleanup_stale_loop
    split
    · rw [if_pos h]
      exact ih st _ (by simp [List.filter_append, htr,
        Effect.touchesFilesystem, Effect.isDiskMutation])
    · simp only [h, lock_path_noop_eq, eq_self_iff_true, if_true]
      rw [unlock_path_noop_state]
      apply ih
      simp [List.filter_append, htr, unlock_path_noop_trace,
        Effect.touchesFilesystem, Effect.isDiskMutation]

/-- Helper for C9: stale-clone cleanup in noop mode preserves the state and
touches nothing. -/
theorem cleanup_stale_environment_clones_noop (cfg : Config) (h : cfg.noop = true)
    (st : ManagerState) :
    (cleanup_stale_environment_clones cfg st).preservesFrom st := by
  unfold cleanup_stale_environment_clones
  exact cleanup_stale_loop_noop cfg h _ st [] rfl

/-- Helper for C9: fetching in noop mode preserves the state and touches
nothing. -/
theorem fetch_changes_noop (cfg : Config) (h : cfg.noop = true) (st : ManagerState) :
    (fetch_changes cfg st).1 = st ∧
    (fetch_changes cfg st).2.filter Effect.touchesFilesystem = [] := by
  unfold fetch_changes
  simp only [h, lock_path_noop_eq, eq_self_iff_true, if_true]
  refine ⟨?_, ?_⟩
  · exact unlock_path_noop_state _ _
  · simp [List.filter_append, unlock_path_noop_trace,
      Effect.touchesFilesystem, Effect.isDiskMutation]

/-- C9: with the simulate flag set, every mutating operation — add, update,
remove, stale-clone cleanup, fetch — leaves the state unchanged and emits no
subprocess invocation, no symlink creation, no rename, no tree deletion, no
git mutation and no lock-file traffic; only log lines are produced.  The
read and decision logic is shared with real mode by construction: the
listing, diffing and sync-check functions of this development take no noop
flag at all. -/
theorem noop_operations_frame (cfg : Config) (hnoop : cfg.noop = true)
    (cloneOk installOk : Bool) (supply : List Chars) (st : ManagerState)
    (environment : Chars) (force : Bool) :
    (add_environment cfg cloneOk installOk supply st environment).preservesFrom st ∧
    (update_environment cfg cloneOk installOk supply st environment force).preservesFrom st ∧
    (remove_environment cfg st environment).preservesFrom st ∧
    (cleanup_stale_environment_clones cfg st).preservesFrom st ∧
    ((fetch_changes cfg st).1 = st ∧
     (fetch_changes cfg st).2.filter Effect.touchesFilesystem = []) :=
  ⟨add_environment_noop cfg hnoop cloneOk installOk supply st environment,
   update_environment_noop cfg hnoop cloneOk installOk supply st environment force,
   remove_environment_noop cfg hnoop st environment,
   cleanup_stale_environment_clones_noop cfg hnoop st,
   fetch_changes_noop cfg hnoop st⟩

/-- Witness for C9 at a concrete noop configuration and state. -/
theorem noop_operations_frame_witness :
    (add_environment sampleNoopConfig true true [("aaaaaa".toList)] sampleOutdatedState
        ("test".toList)).preservesFrom sampleOutdatedState ∧
    (update_environment sampleNoopConfig true true [("aaaaaa".toList)] sampleOutdatedState
        ("test".toList) false).preservesFrom sampleOutdatedState ∧
    (remove_environment sampleNoopConfig sampleOutdatedState ("test".toList)).preservesFrom
        sampleOutdatedState ∧
    (cleanup_stale_environment_clones sampleNoopConfig sampleOutdatedState).preservesFrom
        sampleOutdatedState ∧
    ((fetch_changes sampleNoopConfig sampleOutdatedState).1 = sampleOutdatedState ∧
     (fetch_changes sampleNoopConfig sampleOutdatedState).2.filter Effect.touchesFilesystem = []) :=
  noop_operations_frame sampleNoopConfig rfl true true [("aaaaaa".toList)] sampleOutdatedState
    ("test".toList) false

/-- C1 (code bug): when the clone subprocess fails during
`update_environment` of an out-of-date, symlinked environment, the operation
does not abort — it returns normally with the canonical path re-pointed at
the never-created clone directory `/d/test.aaaaaa` (a dangling link), the
old content `/d/test.old` deleted from disk, and the clone-failure error
logged.  This contradicts the specified behaviour (abort before any linking
or swap; old content retained): the `except` handler in
`update_environment` lacks the `return` its counterpart in
`add_environment` has. -/
theorem update_clone_failure_breaks_canonical_path :
    cloneFailureResult.finalState?.map (fun s => fsGet s.fs ("/d/test".toList)) =
      some (some (FSKind.link ("/d/test.aaaaaa".toList))) ∧
    cloneFailureResult.finalState?.map (fun s => fsGet s.fs ("/d/test.aaaaaa".toList)) =
      some none ∧
    cloneFailureResult.finalState?.map (fun s => fsGet s.fs ("/d/test.old".toList)) =
      some none ∧
    cloneFailureResult.traceOf?.map
        (fun tr => tr.contains (Effect.rmtree ("/d/test.old".toList))) = some true ∧
    cloneFailureResult.traceOf?.map
        (fun tr => tr.contains (Effect.logMsg ("Failed to add environment ".toList ++ "test".toList))) = some true := by
  decide

end PuppetEnvManager
